import Mathlib

/-!
Verification of the helios versioned record store and thread reconstructor.

This file gives a shallow embedding, in Lean, of the core algorithms of the
repository:

* `BaseDataStore.sanitizeName` and `BaseDataStore.createHash`,
* the PostgreSQL branch of `DataStore.save`, `DataStore.fetch`,
  `DataStore.fetchEntry` and `DataStore.searchInPostgres`,
* `BaseDataStore.compareSnapshots` together with the SQLite
  `exportSnapshot` / `importSnapshot` pair,
* `DataStore.deleteSnapshot` and `SQLiteDataStore.deleteSnapshot`
  (as operation traces),
* the thread wiring of `DataBrowser.GetThread` and the re-rooting
  `DataBrowser.BuildFocusPost`.

Conventions used throughout:

* JavaScript objects whose exact key set matters are modelled as ordered
  association lists (`List (String × String)`), mirroring the insertion-order
  semantics of object literals and of `Map`.
* `JSON.stringify` on such an object is modelled by `stringifyPayload`,
  which is injective on that domain.
* `crypto.createHash("sha256")....digest("hex")` is modelled symbolically:
  every definition that hashes takes the digest function `H : String → String`
  as an explicit parameter.  Theorems that need a concrete digest use the
  injective stand-in `idealHash`; with the real SHA-256 the corresponding
  inequalities hold unless a collision is found.
* SQL timestamps are modelled as `Nat`; `ORDER BY modified_at DESC LIMIT 1`
  is modelled as "row with the largest `modifiedAt`, earliest stored row
  winning ties".
-/

namespace Helios

/-- Payload: a flat JavaScript object with string values, in insertion order.
Models the opaque record payloads the store serializes. -/
abbrev Payload := List (String × String)

/-- Model of `JSON.stringify` on a flat string-valued object: keys kept in
insertion order, standard JSON syntax. -/
def stringifyPayload (p : Payload) : String :=
  "\x7b" ++ String.intercalate ","
    (p.map (fun kv => "\x22" ++ kv.1 ++ "\x22:\x22" ++ kv.2 ++ "\x22")) ++ "\x7d"

/-- Model of the JavaScript spread `{ ...data, hash }`: if the object already
has a `hash` key its value is replaced in place, otherwise `hash` is appended
as the last key. -/
def extendHash (data : Payload) (h : String) : Payload :=
  if data.any (fun kv => kv.1 = "hash") then
    data.map (fun kv => if kv.1 = "hash" then ("hash", h) else kv)
  else
    data ++ [("hash", h)]

/-- Injective stand-in for the SHA-256 hex digest, used to instantiate the
symbolic digest parameter in concrete runs. -/
def idealHash (s : String) : String := "#" ++ s

/-- Embeds `BaseDataStore.sanitizeName` (also duplicated as
`DataStore.sanitizeName`): `name.replace(/[^a-zA-Z0-9_]/g, "_")`. -/
def sanitizeName (name : String) : String :=
  String.mk (name.data.map (fun c =>
    if (('a' ≤ c ∧ c ≤ 'z') ∨ ('A' ≤ c ∧ c ≤ 'Z') ∨ ('0' ≤ c ∧ c ≤ '9') ∨ c = '_')
    then c else '_'))

/-- Character class of `sanitizeName`'s output: ASCII letters, digits and
underscore. -/
def tableNameChar (c : Char) : Prop :=
  ('a' ≤ c ∧ c ≤ 'z') ∨ ('A' ≤ c ∧ c ≤ 'Z') ∨ ('0' ≤ c ∧ c ≤ '9') ∨ c = '_'

instance (c : Char) : Decidable (tableNameChar c) := by
  unfold tableNameChar; infer_instance

/-- Embeds `BaseDataStore.createHash`: with a previous digest the result is
`H(previousDataHash + JSON.stringify(data))`, otherwise
`H(JSON.stringify(data))`. -/
def createHash (H : String → String) (data : Payload)
    (previousDataHash : Option String) : String :=
  match previousDataHash with
  | some p => H (p ++ stringifyPayload data)
  | none => H (stringifyPayload data)

/-- One stored row of a per-kind record table (columns of the tables created
by `DataStore.save`): id, snapshotset, version, data, modified_at, hash.
`created_at` always equals `modified_at` at insertion and is omitted. -/
structure Row where
  id : String
  snapshotset : String
  version : String
  data : Payload
  modifiedAt : Nat
  hash : String
  deriving DecidableEq, Repr

/-- Model of `SELECT ... WHERE id = $1 ORDER BY modified_at DESC LIMIT 1`:
the row with the given id carrying the largest `modifiedAt`; among equal
timestamps the earliest stored row wins (the SQL order is unspecified there,
and the theorems below only rely on runs with distinct timestamps). -/
def latestRow (id : String) : List Row → Option Row
  | [] => none
  | r :: rest =>
    if r.id = id then
      match latestRow id rest with
      | none => some r
      | some b => if b.modifiedAt > r.modifiedAt then some b else some r
    else latestRow id rest

/-- Embeds the PostgreSQL branch of `DataStore.save` for one record kind.
The state is the list of rows of that kind's table, in insertion order.
The previous-version lookup is by id only (the source query filters neither
by snapshot nor by version); the previous digest is recomputed as
`H(JSON.stringify(previousRow.data))` where the stored `data` column holds
the previous payload already extended with its own hash.  Returns the new
table state and the hash the call returns to the caller. -/
def save (H : String → String) (st : List Row) (id : String) (data : Payload)
    (snapshotset version : String) (now : Nat) : List Row × String :=
  let hash :=
    match latestRow id st with
    | some prev =>
      let previousDataHash := H (stringifyPayload prev.data)
      H (previousDataHash ++ stringifyPayload data)
    | none => H (stringifyPayload data)
  let extendedData := extendHash data hash
  (st ++ [⟨id, snapshotset, version, extendedData, now, hash⟩], hash)

/-- Runs a sequence of `save` calls for one id and snapshot, starting from a
table state and a clock value; successive calls get strictly increasing
timestamps.  Returns the final state and the list of returned hashes. -/
def runSaves (H : String → String) (id snap : String) :
    List Row → Nat → List (Payload × String) → List Row × List String
  | st, _, [] => (st, [])
  | st, now, (p, v) :: rest =>
    let s1 := save H st id p snap v now
    let s2 := runSaves H id snap s1.1 (now + 1) rest
    (s2.1, s1.2 :: s2.2)

/-- The hash chain the code actually produces: the first hash is
`H(serialize(p))`; each later hash is `H(H(serialize(prevStored)) ++
serialize(p))` where `prevStored` is the previous version's stored data
column, i.e. the previous payload extended with its own hash. -/
def chainHashes (H : String → String) : Option Payload → List Payload → List String
  | _, [] => []
  | prev, p :: ps =>
    let h :=
      match prev with
      | none => H (stringifyPayload p)
      | some d => H (H (stringifyPayload d) ++ stringifyPayload p)
    h :: chainHashes H (some (extendHash p h)) ps

/-- Disjunction of a matcher over a string and all of its suffixes; the
building block of `%` matching. -/
def suffixMatch (g : List Char → Bool) : List Char → Bool
  | [] => g []
  | c :: s2 => g (c :: s2) || suffixMatch g s2

/-- SQL `LIKE` matching on character lists: `%` matches any sequence (i.e.
the rest of the pattern is matched against some suffix, tried longest
first), `_` any single character, every other character matches itself. -/
def likeChars : List Char → List Char → Bool
  | [], s => s.isEmpty
  | p :: ps, s =>
    if p = '%' then suffixMatch (likeChars ps) s
    else
      match s with
      | [] => false
      | c :: s2 =>
        if p = '_' then likeChars ps s2
        else (p == c) && likeChars ps s2

/-- SQL `LIKE` on strings. -/
def sqlLike (pattern s : String) : Bool := likeChars pattern.data s.data

/-- Resolution of a record row shared by `DataStore.fetch` and
`DataStore.fetchEntry`: without a version, latest by `modified_at`; with a
version, the row with that exact `(id, version)` (first stored, the pair
being the table's primary key). -/
def resolveRow (st : List Row) (id : String) (version : Option String) : Option Row :=
  match version with
  | none => latestRow id st
  | some v => st.find? (fun r => r.id == id && r.version == v)

/-- Embeds the PostgreSQL branch of `DataStore.fetch`: returns the `data`
column of the resolved row.  Neither query filters by snapshot. -/
def fetch (st : List Row) (id : String) (version : Option String) : Option Payload :=
  (resolveRow st id version).map Row.data

/-- Embeds the PostgreSQL branch of `DataStore.searchInPostgres`:
`SELECT * FROM t WHERE id LIKE $1 [AND data->>$2 = $3]`, rows in storage
order (the source query has no ORDER BY and no snapshot filter). -/
def searchInPostgres (st : List Row) (idPattern : String)
    (fieldFilter : Option (String × String)) : List Row :=
  st.filter (fun r =>
    sqlLike idPattern r.id &&
      match fieldFilter with
      | none => true
      | some fv => ((r.data.find? (fun kv => kv.1 == fv.1)).map Prod.snd) == some fv.2)

/-- One row of the `entry` provenance-ledger table: its id, snapshotset and
`data` column (the serialized `EntryDB`, `none` when the column is NULL). -/
structure ERow where
  id : String
  snapshotset : String
  edata : Option String
  deriving DecidableEq, Repr

/-- Embeds the PostgreSQL branch of `DataStore.fetchEntry`: resolve the
record row, then join the ledger with
`SELECT * FROM entry WHERE id = $1 AND snapshotset = $2 LIMIT 1`; if a
ledger row with usable `data` exists, pair it with the record payload
(`Entry.create`), otherwise the function falls through and returns
`undefined`. -/
def fetchEntry (st : List Row) (entries : List ERow) (id : String)
    (version : Option String) : Option (String × Payload) :=
  match resolveRow st id version with
  | none => none
  | some row =>
    match entries.find? (fun e => e.id == row.id && e.snapshotset == row.snapshotset) with
    | none => none
    | some e =>
      match e.edata with
      | none => none
      | some d => some (d, row.data)

/-- Rewrites a row's snapshotset label, leaving every other column alone.
Used to state that the read queries never consult the snapshot column. -/
def relabelRow (f : String → String) (r : Row) : Row :=
  { r with snapshotset := f r.snapshotset }

/-- Insertion into a JavaScript `Map` built from key/value pairs: an existing
key keeps its position and gets the new value, a new key is appended. -/
def jsMapInsert {R : Type} (m : List (String × R)) (k : String) (v : R) :
    List (String × R) :=
  if m.any (fun kv => kv.1 = k) then
    m.map (fun kv => if kv.1 = k then (k, v) else kv)
  else m ++ [(k, v)]

/-! ### Thread reconstruction (`DataBrowser.GetThread` / `BuildFocusPost`)

The wired `threadCache` is modelled as an ordered map from post id to a node
holding the parent pointer and the reply list; object references in the
JavaScript heap are represented by the ids that key the cache. -/

/-- One entry of the wired thread cache: the `ThreadViewPostStrict` skeleton
fields that the traversal reads (`parent`, `replies`). -/
structure TVNode where
  parent : Option String
  replies : List String
  deriving DecidableEq, Repr

/-- The `threadCache` map of `DataBrowser.GetThread`. -/
abbrev ThreadCache := List (String × TVNode)

/-- One flat post entry as consumed by `GetThread`: its at-uri and its
`record.reply?.parent?.uri`. -/
structure PostEntry where
  id : String
  replyParent : Option String
  deriving DecidableEq, Repr

/-- Cache lookup (`threadCache.get`). -/
def getNode (g : ThreadCache) (i : String) : Option TVNode :=
  (g.find? (fun kv => kv.1 == i)).map Prod.snd

/-- One step of the wiring loop of `GetThread`: for an entry with a reply
parent, if both endpoints are in the cache, push the entry onto the parent's
reply list and set the entry's parent pointer.  (The missing-parent branch
re-invokes the fetch collaborator once; the inputs considered here always
have both endpoints present, so that branch is not taken.) -/
def wireStep (cache : ThreadCache) (e : PostEntry) : ThreadCache :=
  match e.replyParent with
  | none => cache
  | some p =>
    match getNode cache p, getNode cache e.id with
    | some _, some _ =>
      let c1 := cache.map (fun kv =>
        if kv.1 == p then (kv.1, { kv.2 with replies := kv.2.replies ++ [e.id] }) else kv)
      c1.map (fun kv =>
        if kv.1 == e.id then (kv.1, { kv.2 with parent := some p }) else kv)
    | _, _ => cache

/-- The two loops of `GetThread` that build and wire the thread cache:
first every entry is loaded as a skeleton node (`parent` unset, `replies`
empty), then each reply edge is wired. -/
def wire (entries : List PostEntry) : ThreadCache :=
  let cache0 := entries.foldl (fun c e => jsMapInsert c e.id ⟨none, []⟩) ([] : ThreadCache)
  entries.foldl wireStep cache0

/-- A descendant clone produced by the `down` direction of `BuildFocusPost`:
`{ ...atPost, parent: undefined, replies: [] }` with the replies then filled
by recursion.  The `parent` field records the clone's parent pointer. -/
inductive DTree where
  | mk (id : String) (parent : Option String) (replies : List DTree)
  deriving Repr

/-- An ancestor clone produced by the `up` direction of `BuildFocusPost`:
`{ ...atPost, replies: [] }`, re-linked to the previously cloned child. -/
structure UpNode where
  id : String
  replies : List DTree
  deriving Repr

/-- The re-rooted view produced by the `root` direction of `BuildFocusPost`:
the focus id, its chain of ancestor clones (nearest first, ending at the
node whose parent pointer is unset) and its descendant clone trees. -/
structure FocusView where
  id : String
  ancestors : List UpNode
  replies : List DTree
  deriving Repr

/-- The `up` recursion of `BuildFocusPost`, with explicit fuel: the source
recursion has no termination guard, so exhausted fuel (`none`) models a
recursion that has not returned within `fuel` nested calls. -/
def buildUp (g : ThreadCache) : Nat → String → Option (List UpNode)
  | 0, _ => none
  | Nat.succ n, i =>
    match getNode g i with
    | none => none
    | some nd =>
      match nd.parent with
      | none => some [⟨i, []⟩]
      | some p => (buildUp g n p).map (fun rest => ⟨i, []⟩ :: rest)

/-- The `down` recursion of `BuildFocusPost` over a list of reply ids, with
explicit fuel (sibling steps also tick the fuel; fuel is an upper bound on
the number of recursive calls, and every theorem below either supplies
enough fuel or quantifies over all of it). -/
def buildDownList (g : ThreadCache) : Nat → List String → Option (List DTree)
  | 0, _ => none
  | Nat.succ _, [] => some []
  | Nat.succ n, i :: is =>
    match getNode g i with
    | none => none
    | some nd =>
      match buildDownList g n nd.replies, buildDownList g n is with
      | some ts, some rest => some (DTree.mk i none ts :: rest)
      | _, _ => none

/-- The `root` direction of `BuildFocusPost` applied to the focus node of
`GetThread`: shallow-clone the focus, recurse `up` through its parent if
any, and `down` through each of its replies. -/
def buildFocusPost (g : ThreadCache) (fuel : Nat) (i : String) : Option FocusView :=
  match getNode g i with
  | none => none
  | some nd =>
    let anc :=
      match nd.parent with
      | none => some ([] : List UpNode)
      | some p => buildUp g fuel p
    match anc, buildDownList g fuel nd.replies with
    | some a, some rs => some ⟨i, a, rs⟩
    | _, _ => none

mutual

/-- Checks that a descendant clone and all clones below it carry no parent
pointer. -/
def dtreeParentFree : DTree → Bool
  | DTree.mk _ p rs => p.isNone && dtreeListParentFree rs

/-- List version of `dtreeParentFree`. -/
def dtreeListParentFree : List DTree → Bool
  | [] => true
  | t :: ts => dtreeParentFree t && dtreeListParentFree ts

end

/-! ### Snapshot deletion traces (`deleteSnapshot`) -/

/-- One database operation issued while deleting a snapshot. -/
inductive DbOp where
  | begin
  | commit
  | del (table : String)
  deriving DecidableEq, Repr

/-- Embeds the statement order of the PostgreSQL `DataStore.deleteSnapshot`:
BEGIN, delete the `snapshotsets` row, then delete the snapshot's rows from
every other table, COMMIT. -/
def deleteSnapshotOpsPostgres (tables : List String) : List DbOp :=
  DbOp.begin :: DbOp.del "snapshotsets" ::
    ((tables.filter (fun t => t != "snapshotsets")).map DbOp.del ++ [DbOp.commit])

/-- Embeds the statement order of `SQLiteDataStore.deleteSnapshot`: BEGIN,
delete the snapshot's rows from every table that has a `snapshotset` column
other than `snapshotsets` itself, then delete the `snapshotsets` row,
COMMIT. -/
def deleteSnapshotOpsSQLite (tables : List String)
    (hasSnapshotsetColumn : String → Bool) : List DbOp :=
  DbOp.begin ::
    ((tables.filter (fun t => hasSnapshotsetColumn t && t != "snapshotsets")).map DbOp.del
      ++ [DbOp.del "snapshotsets", DbOp.commit])

/-- The tables targeted by DELETE statements of a trace, in issue order. -/
def delTargets (ops : List DbOp) : List String :=
  ops.filterMap (fun o =>
    match o with
    | DbOp.del t => some t
    | _ => none)

/-! ### Snapshot comparison (`BaseDataStore.compareSnapshots`) and the
SQLite export/import pair -/

/-- Per-table diff of `compareSnapshots`. -/
structure TableDiff where
  onlyIn1 : List String
  onlyIn2 : List String
  inBothButDifferent : List String
  deriving DecidableEq, Repr

/-- Builds a JavaScript `Map` from a record list keyed by
`keyOf` (the source expression `r.id || r._id`): later records with an
already-seen key overwrite in place. -/
def jsMapOfList {R : Type} (keyOf : R → String) (rs : List R) : List (String × R) :=
  rs.foldl (fun m r => jsMapInsert m (keyOf r) r) []

/-- JavaScript `Set` built from a list: deduplication keeping the first
occurrence, in insertion order. -/
def dedupKeepFirst (l : List String) : List String :=
  l.foldl (fun acc k => if acc.contains k then acc else acc ++ [k]) []

/-- The record list of a named table of an exported snapshot:
`snapshot.tables[table] || []`. -/
def lookupTable {R : Type} (tabs : List (String × List R)) (name : String) : List R :=
  ((tabs.find? (fun t => t.1 == name)).map Prod.snd).getD []

/-- The per-table loop body of `compareSnapshots`: classify every id of
either side as only-in-1, only-in-2, or in-both-but-different (the latter by
serialized equality `eqR`, modelling `JSON.stringify` comparison). -/
def tableDiffOf {R : Type} (keyOf : R → String) (eqR : R → R → Bool)
    (rs1 rs2 : List R) : TableDiff :=
  (dedupKeepFirst ((jsMapOfList keyOf rs1).map Prod.fst ++
      (jsMapOfList keyOf rs2).map Prod.fst)).foldl
    (fun d i =>
      match (jsMapOfList keyOf rs1).find? (fun kv => kv.1 == i),
          (jsMapOfList keyOf rs2).find? (fun kv => kv.1 == i) with
      | none, _ => { d with onlyIn2 := d.onlyIn2 ++ [i] }
      | some _, none => { d with onlyIn1 := d.onlyIn1 ++ [i] }
      | some r1, some r2 =>
        if eqR r1.2 r2.2 then d
        else { d with inBothButDifferent := d.inBothButDifferent ++ [i] })
    ⟨[], [], []⟩

/-- The inclusion test of `compareSnapshots`: a table's diff is recorded only
when one of its three lists is non-empty. -/
def diffNonempty (d : TableDiff) : Bool :=
  !d.onlyIn1.isEmpty || !d.onlyIn2.isEmpty || !d.inBothButDifferent.isEmpty

/-- The table loop of `compareSnapshots` over a given table-name order. -/
def buildDifferences {R : Type} (keyOf : R → String) (eqR : R → R → Bool)
    (tables1 tables2 : List (String × List R)) : List String → List (String × TableDiff)
  | [] => []
  | t :: ts =>
    let d := tableDiffOf keyOf eqR (lookupTable tables1 t) (lookupTable tables2 t)
    (if diffNonempty d then [(t, d)] else []) ++
      buildDifferences keyOf eqR tables1 tables2 ts

/-- Embeds the `differences` object computed by
`BaseDataStore.compareSnapshots` from the `tables` of the two exported
snapshots, generic over the row representation. -/
def compareSnapshots {R : Type} (keyOf : R → String) (eqR : R → R → Bool)
    (tables1 tables2 : List (String × List R)) : List (String × TableDiff) :=
  buildDifferences keyOf eqR tables1 tables2
    (dedupKeepFirst (tables1.map Prod.fst ++ tables2.map Prod.fst))

/-- A row of a SQLite record table, as returned by `SELECT *`: the `data`
column is kept as its serialized text. -/
structure SQLRow where
  id : String
  snapshotset : String
  version : String
  data : String
  createdAt : String
  modifiedAt : String
  hash : String
  deriving DecidableEq, Repr

/-- The SQLite database state: the `snapshotsets` table (id, created_at) and
the per-kind record tables (every modelled table carries the standard
columns, hence a `snapshotset` column). -/
structure SQLiteDB where
  snapshots : List (String × String)
  tables : List (String × List SQLRow)
  deriving DecidableEq, Repr

/-- The portable format produced by `SQLiteDataStore.exportSnapshot`. -/
structure ExportedSnapshot where
  id : String
  createdAt : String
  tables : List (String × List SQLRow)
  deriving DecidableEq, Repr

/-- Embeds `SQLiteDataStore.exportSnapshot`: `none` if the snapshot id is
absent from `snapshotsets`; otherwise, for every record table, the rows with
this snapshotset, the table being included only when that selection is
non-empty. -/
def exportSnapshot (db : SQLiteDB) (sid : String) : Option ExportedSnapshot :=
  match db.snapshots.find? (fun s => s.1 == sid) with
  | none => none
  | some s =>
    some ⟨sid, s.2,
      db.tables.filterMap (fun t =>
        let rs := t.2.filter (fun r => r.snapshotset == sid)
        if rs.isEmpty then none else some (t.1, rs))⟩

/-- Embeds the per-record INSERT of `SQLiteDataStore.importSnapshot`:
`ON CONFLICT (id, version) DO UPDATE SET data, modified_at, hash` — a row
whose `(id, version)` already exists in the table has those three columns
overwritten in place; otherwise a fresh row is inserted under the importing
snapshot id. -/
def upsertRow (rows : List SQLRow) (sid : String) (r : SQLRow) : List SQLRow :=
  if rows.any (fun q => q.id == r.id && q.version == r.version) then
    rows.map (fun q =>
      if q.id == r.id && q.version == r.version then
        { q with data := r.data, modifiedAt := r.modifiedAt, hash := r.hash }
      else q)
  else rows ++ [{ r with snapshotset := sid }]

/-- Embeds `ensureTableExists`: create the (empty) table if absent. -/
def ensureTable (tabs : List (String × List SQLRow)) (name : String) :
    List (String × List SQLRow) :=
  if tabs.any (fun t => t.1 == name) then tabs else tabs ++ [(name, [])]

/-- Applies `upsertRow` to the named table. -/
def upsertIntoTables (tabs : List (String × List SQLRow)) (name sid : String)
    (r : SQLRow) : List (String × List SQLRow) :=
  tabs.map (fun t => if t.1 == name then (t.1, upsertRow t.2 sid r) else t)

/-- Embeds the success path of `SQLiteDataStore.importSnapshot`: register the
snapshot id (`ON CONFLICT DO NOTHING`), then for every exported table ensure
it exists and upsert each of its records. -/
def importSnapshot (db : SQLiteDB) (sid : String) (ex : ExportedSnapshot) : SQLiteDB :=
  let snaps :=
    if db.snapshots.any (fun s => s.1 == sid) then db.snapshots
    else db.snapshots ++ [(sid, ex.createdAt)]
  let tabs := ex.tables.foldl
    (fun ts te =>
      let ts1 := ensureTable ts te.1
      te.2.foldl (fun ts2 r => upsertIntoTables ts2 te.1 sid r) ts1)
    db.tables
  ⟨snaps, tabs⟩

/-- Key extraction `r.id || r._id` for SQLite rows: rows produced by
`SELECT *` always carry the `id` column, so the fallback never fires. -/
def sqlKeyOf (r : SQLRow) : String := r.id

/-- Serialized equality of two SQLite rows: `JSON.stringify` agreement on
rows of identical column shape coincides with columnwise equality. -/
def sqlRowEq (a b : SQLRow) : Bool := a == b

/-- Embeds `BaseDataStore.compareSnapshots` run on a SQLite store: export
both snapshots (`none` models the thrown error when either is missing) and
diff their tables. -/
def compareDbSnapshots (db : SQLiteDB) (s1 s2 : String) :
    Option (List (String × TableDiff)) :=
  match exportSnapshot db s1, exportSnapshot db s2 with
  | some e1, some e2 => some (compareSnapshots sqlKeyOf sqlRowEq e1.tables e2.tables)
  | _, _ => none

/-- A generic exported record as `compareSnapshots` sees one: its `id`
field, its `_id` field (the empty string modelling a falsy/absent value in
both) and the rest of its serialized content. -/
structure XRow where
  id : String
  uid : String
  body : String
  deriving DecidableEq, Repr

/-- Key extraction `r.id || r._id` for generic records: an empty (falsy)
`id` falls back to `_id`. -/
def xKeyOf (r : XRow) : String := if r.id = "" then r.uid else r.id

/-! ## Concrete fixtures -/

/-- First payload of the two-save hash-chain run. -/
def hashP1 : Payload := [("a", "1")]

/-- Second payload of the two-save hash-chain run. -/
def hashP2 : Payload := [("a", "2")]

/-- First save into an empty table: stores version v1 of id `x`. -/
def hashRun1 : List Row × String := save idealHash [] "x" hashP1 "s1" "v1" 1

/-- Second save of the same id, against the state left by the first. -/
def hashRun2 : List Row × String := save idealHash hashRun1.1 "x" hashP2 "s1" "v2" 2

/-- A record of id `x` stored under snapshot `s1`. -/
def snapRow1 : Row := ⟨"x", "s1", "v1", [("val", "old")], 1, "h1"⟩

/-- A later record of the same id stored under a different snapshot `s2`. -/
def snapRow2 : Row := ⟨"x", "s2", "v2", [("val", "new")], 2, "h2"⟩

/-- The primary-key property of a SQLite record table: `(id, version)`
determines the row. -/
def rowKeyUnique (rows : List SQLRow) : Prop :=
  ∀ q ∈ rows, ∀ r ∈ rows, q.id = r.id → q.version = r.version → q = r

/-- A record row stored under snapshot `s1`, used for the export/import
round trip. -/
def roundtripRow : SQLRow := ⟨"p1", "s1", "v1", "d1", "t1", "t1", "h1"⟩

/-- A SQLite store holding one snapshot `s1` with one record. -/
def roundtripDb : SQLiteDB := ⟨[("s1", "t0")], [("post", [roundtripRow])]⟩

/-- The export of snapshot `s1` of `roundtripDb`. -/
def roundtripExported : ExportedSnapshot := ⟨"s1", "t0", [("post", [roundtripRow])]⟩

/-- A first stored version of the id the search pattern names. -/
def searchRowV1 : Row := ⟨"at://did:abc/", "s1", "v1", [("n", "1")], 1, "h1"⟩

/-- A second, newer stored version of the same id. -/
def searchRowV2 : Row := ⟨"at://did:abc/", "s1", "v2", [("n", "2")], 2, "h2"⟩

/-- The stored thread `A(root) -> B -> C` and `B -> D`: B replies to A, and
C and D both reply to B. -/
def focusEntries : List PostEntry :=
  [⟨"A", none⟩, ⟨"B", some "A"⟩, ⟨"C", some "B"⟩, ⟨"D", some "B"⟩]

/-- The wired thread cache of the `A/B/C/D` conversation. -/
def focusGraph : ThreadCache := wire focusEntries

/-- Two ThreadNodes whose parent pointers form a cycle: `X`'s parent is `Y`
and `Y`'s parent is `X`. -/
def cycleEntries : List PostEntry := [⟨"X", some "Y"⟩, ⟨"Y", some "X"⟩]

/-- The wired thread cache of the cyclic pair. -/
def cycleGraph : ThreadCache := wire cycleEntries

/-- A generic exported record used to exercise `compareSnapshots`. -/
def xrowFixture : XRow := ⟨"r1", "", "body1"⟩

/-! ## Theorems -/

/-- Helper: one-step unfolding of `latestRow`. -/
theorem latestRow_cons (id : String) (r : Row) (rest : List Row) :
    latestRow id (r :: rest) =
      if r.id = id then
        match latestRow id rest with
        | none => some r
        | some b => if b.modifiedAt > r.modifiedAt then some b else some r
      else latestRow id rest := rfl

/-- Helper: appending a row for the sought id that is strictly newer than
every stored row makes it the latest. -/
theorem latestRow_append_newer (st : List Row) (id : String) (row : Row)
    (hid : row.id = id) (hlt : ∀ r ∈ st, r.modifiedAt < row.modifiedAt) :
    latestRow id (st ++ [row]) = some row := by
  induction st with
  | nil => simp [latestRow, latestRow_cons, hid]
  | cons r rest ih =>
    have hr : r.modifiedAt < row.modifiedAt := hlt r (by simp)
    have ih2 := ih (fun q hq => hlt q (by simp [hq]))
    rw [List.cons_append, latestRow_cons, ih2]
    by_cases h : r.id = id
    · rw [if_pos h]
      show (if row.modifiedAt > r.modifiedAt then some row else some r) = some row
      rw [if_pos hr]
    · rw [if_neg h]

/-- Helper: the invariant of `runSaves`, relating the produced hashes to the
recomputed chain, threaded through the evolving table state. -/
theorem runSaves_eq_chainHashes (H : String → String) (id snap : String) :
    ∀ (saves : List (Payload × String)) (st : List Row) (now : Nat),
      (∀ r ∈ st, r.modifiedAt < now) →
      (runSaves H id snap st now saves).2 =
        chainHashes H ((latestRow id st).map Row.data) (saves.map Prod.fst) := by
  intro saves
  induction saves with
  | nil => intro st now _; rfl
  | cons pv rest ih =>
    intro st now hbound
    obtain ⟨p, v⟩ := pv
    simp only [runSaves, save, List.map_cons, chainHashes]
    have hlatest : latestRow id
        (st ++ [⟨id, snap, v, extendHash p
          (match latestRow id st with
           | some prev => H (H (stringifyPayload prev.data) ++ stringifyPayload p)
           | none => H (stringifyPayload p)), now,
          (match latestRow id st with
           | some prev => H (H (stringifyPayload prev.data) ++ stringifyPayload p)
           | none => H (stringifyPayload p))⟩]) =
        some ⟨id, snap, v, extendHash p
          (match latestRow id st with
           | some prev => H (H (stringifyPayload prev.data) ++ stringifyPayload p)
           | none => H (stringifyPayload p)), now,
          (match latestRow id st with
           | some prev => H (H (stringifyPayload prev.data) ++ stringifyPayload p)
           | none => H (stringifyPayload p))⟩ :=
      latestRow_append_newer st id _ rfl hbound
    have hbound2 : ∀ r ∈ (st ++ [(⟨id, snap, v, extendHash p
          (match latestRow id st with
           | some prev => H (H (stringifyPayload prev.data) ++ stringifyPayload p)
           | none => H (stringifyPayload p)), now,
          (match latestRow id st with
           | some prev => H (H (stringifyPayload prev.data) ++ stringifyPayload p)
           | none => H (stringifyPayload p))⟩ : Row)]), r.modifiedAt < now + 1 := by
      intro r hr
      rcases List.mem_append.mp hr with h | h
      · exact Nat.lt_succ_of_lt (hbound r h)
      · simp only [List.mem_singleton] at h
        subst h
        exact Nat.lt_succ_self now
    rw [ih _ (now + 1) hbound2, hlatest]
    cases latestRow id st <;> rfl

/-- C1 (amended, theorem): for every digest function, every id and snapshot,
and every sequence of `save` calls for that id starting from an empty table,
the returned hashes follow the chain the code computes: the first is
`H(serialize(p1))`, and each later one is
`H(H(serialize(prevStored)) ++ serialize(p))` where `prevStored` is the
previous version's stored data column — the previous payload with its own
hash embedded — not the hash attached to the previous version. -/
theorem save_hash_chain_recomputes_previous_blob (H : String → String)
    (id snap : String) (saves : List (Payload × String)) :
    (runSaves H id snap [] 0 saves).2 = chainHashes H none (saves.map Prod.fst) := by
  have := runSaves_eq_chainHashes H id snap saves [] 0 (by intro r hr; cases hr)
  simpa [latestRow] using this

/-- C1 (counterexample): with the injective stand-in digest, saving payload
`p1` and then `p2` for the same id stores a prior version whose attached
hash is `hashRun1.2`, yet the second returned (and stored) hash differs from
`H(previousHash ++ serialize(p2))` computed from that attached hash: the
code instead re-hashes the whole previously stored blob. -/
theorem save_hash_differs_from_attached_hash_chain :
    hashRun1.1.map Row.id = ["x"] ∧
    hashRun1.1.map Row.hash = [hashRun1.2] ∧
    hashRun2.2 ≠ idealHash (hashRun1.2 ++ stringifyPayload hashP2) ∧
    (hashRun2.1.map Row.hash).getLast? = some hashRun2.2 := by
  decide

/-- C9 (theorem): every character of `sanitizeName`'s output is an ASCII
letter, a digit or an underscore, so the output is safe to interpolate as a
table name; and the two distinct kinds `a-b` and `a.b`, differing only in a
non-alphanumeric character, collapse to the same table name `a_b`. -/
theorem sanitizeName_output_ascii_and_collides :
    (∀ (s : String), ∀ c ∈ (sanitizeName s).data, tableNameChar c) ∧
    sanitizeName "a-b" = "a_b" ∧ sanitizeName "a.b" = "a_b" ∧ ("a-b" : String) ≠ "a.b" := by
  refine ⟨?_, by decide, by decide, by decide⟩
  intro s c hc
  simp only [sanitizeName, List.mem_map] at hc
  obtain ⟨a, _, ha⟩ := hc
  by_cases h : ('a' ≤ a ∧ a ≤ 'z') ∨ ('A' ≤ a ∧ a ≤ 'Z') ∨ ('0' ≤ a ∧ a ≤ '9') ∨ a = '_'
  · rw [if_pos h] at ha; subst ha; exact h
  · rw [if_neg h] at ha; subst ha
    right; right; right; rfl

/-- C9 (witness): the general character-class property applied to the
concrete input `a-b` at its underscore character. -/
theorem sanitizeName_output_ascii_and_collides_witness :
    tableNameChar '_' :=
  sanitizeName_output_ascii_and_collides.1 "a-b" '_' (by decide)

/-- Helper: relabelling keeps the id column. -/
@[simp] theorem relabelRow_id (f : String → String) (r : Row) :
    (relabelRow f r).id = r.id := rfl

/-- Helper: relabelling keeps the timestamp column. -/
@[simp] theorem relabelRow_modifiedAt (f : String → String) (r : Row) :
    (relabelRow f r).modifiedAt = r.modifiedAt := rfl

/-- Helper: `latestRow` only reads the id and timestamp columns, so it
commutes with relabelling the snapshotset column. -/
theorem latestRow_relabel (f : String → String) (id : String) (st : List Row) :
    latestRow id (st.map (relabelRow f)) = (latestRow id st).map (relabelRow f) := by
  induction st with
  | nil => rfl
  | cons r rest ih =>
    rw [List.map_cons, latestRow_cons, latestRow_cons, ih]
    simp only [relabelRow_id, relabelRow_modifiedAt]
    by_cases h : r.id = id
    · rw [if_pos h, if_pos h]
      cases latestRow id rest with
      | none => rfl
      | some b =>
        show (if (relabelRow f b).modifiedAt > r.modifiedAt then some (relabelRow f b)
              else some (relabelRow f r)) =
            Option.map (relabelRow f)
              (if b.modifiedAt > r.modifiedAt then some b else some r)
        rw [relabelRow_modifiedAt]
        by_cases hm : b.modifiedAt > r.modifiedAt
        · rw [if_pos hm, if_pos hm]; rfl
        · rw [if_neg hm, if_neg hm]; rfl
    · rw [if_neg h, if_neg h]

/-- C3 (amended, theorem): the record-store read queries never consult the
snapshot column: relabelling every row's snapshotset arbitrarily leaves
`fetch` (with or without version) unchanged and permutes nothing in
`searchInPostgres` (its result is the relabelling of the original result).
Queries are snapshot-blind rather than snapshot-partitioned. -/
theorem record_queries_ignore_snapshot_labels (f : String → String)
    (st : List Row) (id : String) (version : Option String)
    (pat : String) (ff : Option (String × String)) :
    fetch (st.map (relabelRow f)) id version = fetch st id version ∧
    searchInPostgres (st.map (relabelRow f)) pat ff =
      (searchInPostgres st pat ff).map (relabelRow f) := by
  constructor
  · cases version with
    | none =>
      simp only [fetch, resolveRow, latestRow_relabel]
      cases latestRow id st <;> rfl
    | some v =>
      simp only [fetch, resolveRow]
      rw [List.find?_map]
      have hpred : ((fun r => r.id == id && r.version == v) ∘ relabelRow f) =
          (fun r => r.id == id && r.version == v) := rfl
      rw [hpred]
      cases st.find? (fun r => r.id == id && r.version == v) <;> rfl
  · unfold searchInPostgres
    rw [List.filter_map]
    rfl

/-- C3 (counterexample): `fetch` without a version returns the newest row
for the id across all snapshots: adding a record with the same id under a
different snapshot changes the result of the query, so the result is not
determined by any single snapshot's records. -/
theorem fetch_result_changed_by_other_snapshot :
    snapRow2.snapshotset ≠ snapRow1.snapshotset ∧
    snapRow2.id = snapRow1.id ∧
    fetch [snapRow1] "x" none ≠ fetch [snapRow1, snapRow2] "x" none := by
  decide

/-- C6 (amended, theorem): when the provenance ledger has no row matching
the resolved record's (id, snapshot), `fetchEntry` returns absence
(`undefined`); no stand-in entry is synthesized from the record's own
metadata. -/
theorem fetchEntry_none_without_ledger_row (st : List Row) (entries : List ERow)
    (id : String) (version : Option String) (row : Row)
    (hres : resolveRow st id version = some row)
    (hledger : entries.find?
      (fun e => e.id == row.id && e.snapshotset == row.snapshotset) = none) :
    fetchEntry st entries id version = none := by
  simp only [fetchEntry, hres, hledger]

/-- C6 (witness): the amended theorem applied to a store holding one record
row and an empty provenance ledger. -/
theorem fetchEntry_none_without_ledger_row_witness :
    fetchEntry [snapRow1] [] "x" none = none :=
  fetchEntry_none_without_ledger_row [snapRow1] [] "x" none snapRow1
    (by decide) (by decide)

/-- C6 (counterexample): a store with a record row for id `x` but no
provenance-ledger entry: the record resolves, yet `fetchEntry` returns
absence instead of a payload paired with a synthesized provenance entry. -/
theorem fetchEntry_absence_not_synthesized :
    resolveRow [snapRow1] "x" none = some snapRow1 ∧
    fetch [snapRow1] "x" none = some snapRow1.data ∧
    fetchEntry [snapRow1] [] "x" none = none := by
  decide

/-- Helper: on a pattern containing neither `%` nor `_`, SQL LIKE matching
is equality of character lists. -/
theorem likeChars_plain (ps : List Char) :
    ∀ (s : List Char), (∀ c ∈ ps, c ≠ '%' ∧ c ≠ '_') →
      (likeChars ps s = true ↔ ps = s) := by
  induction ps with
  | nil =>
    intro s _
    cases s <;> simp [likeChars]
  | cons p ps ih =>
    intro s hplain
    have hp := hplain p (by simp)
    have hrest : ∀ c ∈ ps, c ≠ '%' ∧ c ≠ '_' := fun c hc => hplain c (by simp [hc])
    cases s with
    | nil => simp [likeChars, hp.1]
    | cons c cs =>
      simp [likeChars, hp.1, hp.2, Bool.and_eq_true, beq_iff_eq, ih cs hrest,
        List.cons.injEq]

/-- Helper: string form of `likeChars_plain`. -/
theorem sqlLike_plain (pat s : String)
    (hplain : ∀ c ∈ pat.data, c ≠ '%' ∧ c ≠ '_') :
    (sqlLike pat s = true ↔ pat = s) := by
  unfold sqlLike
  rw [likeChars_plain _ _ hplain]
  constructor
  · intro h
    cases pat with
    | mk d1 =>
      cases s with
      | mk d2 => exact congrArg String.mk h
  · intro h; rw [h]

/-- C7 (amended, theorem): `searchInPostgres` interpolates the pattern into
`LIKE` unchanged, so a pattern without `%` and `_` matches only ids equal to
the pattern; the result is exactly the stored rows with that id, every
version included, in storage order — no per-id deduplication and no
reordering by modification time. -/
theorem searchInPostgres_plain_pattern_exact (st : List Row) (pat : String)
    (hplain : ∀ c ∈ pat.data, c ≠ '%' ∧ c ≠ '_') :
    searchInPostgres st pat none = st.filter (fun r => r.id == pat) := by
  unfold searchInPostgres
  apply List.filter_congr
  intro r _
  show (sqlLike pat r.id && true) = (r.id == pat)
  rw [Bool.and_true]
  cases hb : sqlLike pat r.id with
  | true =>
    have : pat = r.id := (sqlLike_plain pat r.id hplain).mp hb
    simp [this]
  | false =>
    cases hc : (r.id == pat) with
    | true =>
      have : pat = r.id := (beq_iff_eq.mp hc).symm
      rw [← (sqlLike_plain pat r.id hplain)] at this
      rw [this] at hb
      cases hb
    | false => rfl

/-- C7 (witness): the amended theorem applied to the concrete two-version
store and the wildcard-free pattern `at://did:abc/`. -/
theorem searchInPostgres_plain_pattern_exact_witness :
    searchInPostgres [searchRowV1, searchRowV2] "at://did:abc/" none =
      [searchRowV1, searchRowV2].filter (fun r => r.id == "at://did:abc/") :=
  searchInPostgres_plain_pattern_exact [searchRowV1, searchRowV2] "at://did:abc/"
    (by decide)

/-- C7 (counterexample): searching with the pattern `at://did:abc/` over a
store holding two versions of that id returns both rows — two entries for
one id, the older first — contradicting "at most one entry per id (the
most-recently-modified version), ordered newest-modified first". -/
theorem searchInPostgres_returns_every_version :
    searchInPostgres [searchRowV1, searchRowV2] "at://did:abc/" none =
      [searchRowV1, searchRowV2] ∧
    searchRowV1.id = searchRowV2.id ∧
    searchRowV1.version ≠ searchRowV2.version ∧
    searchRowV1.modifiedAt < searchRowV2.modifiedAt := by
  decide

/-- C8 (amended, theorem): in the SQLite implementation the `snapshotsets`
index row is always the last row deleted; in the PostgreSQL implementation
it is always the first row deleted (inside one BEGIN/COMMIT transaction),
with the per-kind rows removed afterwards. -/
theorem deleteSnapshot_index_row_order (tables : List String)
    (hasSnapshotsetColumn : String → Bool) :
    (delTargets (deleteSnapshotOpsPostgres tables)).head? = some "snapshotsets" ∧
    (delTargets (deleteSnapshotOpsSQLite tables hasSnapshotsetColumn)).getLast? =
      some "snapshotsets" := by
  constructor
  · rfl
  · show (List.filterMap _
        ((tables.filter (fun t => hasSnapshotsetColumn t && t != "snapshotsets")).map
            DbOp.del ++ [DbOp.del "snapshotsets", DbOp.commit])).getLast? =
      some "snapshotsets"
    rw [List.filterMap_append]
    have h2 : List.filterMap
        (fun o => match o with | DbOp.del t => some t | _ => none)
        [DbOp.del "snapshotsets", DbOp.commit] = ["snapshotsets"] := rfl
    rw [h2]
    exact List.getLast?_concat _

/-- C8 (counterexample): deleting a snapshot through the PostgreSQL
`DataStore.deleteSnapshot` with one record table issues the DELETE on the
`snapshotsets` index row first and the per-kind DELETE afterwards, so the
index row is not deleted last in that execution. -/
theorem deleteSnapshot_postgres_index_row_first :
    delTargets (deleteSnapshotOpsPostgres ["snapshotsets", "post"]) =
      ["snapshotsets", "post"] ∧
    (delTargets (deleteSnapshotOpsPostgres ["snapshotsets", "post"])).getLast? =
      some "post" := by
  decide

/-- Helper: every ancestor clone the `up` recursion produces has an empty
reply list (`{ ...atPost, replies: [] }`). -/
theorem buildUp_replies_empty (g : ThreadCache) :
    ∀ (fuel : Nat) (i : String) (l : List UpNode),
      buildUp g fuel i = some l → ∀ u ∈ l, u.replies = [] := by
  intro fuel
  induction fuel with
  | zero => intro i l h; cases h
  | succ n ih =>
    intro i l h
    unfold buildUp at h
    cases hg : getNode g i with
    | none => rw [hg] at h; simp at h
    | some nd =>
      rw [hg] at h
      simp only [] at h
      cases hp : nd.parent with
      | none =>
        rw [hp] at h
        simp only [] at h
        injection h with h2
        subst h2
        intro u hu
        simp only [List.mem_singleton] at hu
        subst hu
        rfl
      | some p =>
        rw [hp] at h
        simp only [] at h
        cases hb : buildUp g n p with
        | none => rw [hb] at h; simp at h
        | some rest =>
          rw [hb] at h
          simp only [Option.map_some'] at h
          injection h with h2
          subst h2
          intro u hu
          rcases List.mem_cons.mp hu with h3 | h3
          · subst h3; rfl
          · exact ih p rest hb u h3

/-- Helper: every descendant clone the `down` recursion produces, at every
depth, has no parent pointer (`{ ...atPost, parent: undefined, ... }`). -/
theorem buildDownList_parent_free (g : ThreadCache) :
    ∀ (fuel : Nat) (is : List String) (ts : List DTree),
      buildDownList g fuel is = some ts → dtreeListParentFree ts = true := by
  intro fuel
  induction fuel with
  | zero => intro is ts h; cases h
  | succ n ih =>
    intro is ts h
    cases is with
    | nil =>
      injection h with h2
      subst h2
      rfl
    | cons i rest =>
      unfold buildDownList at h
      cases hg : getNode g i with
      | none => rw [hg] at h; simp at h
      | some nd =>
        rw [hg] at h
        simp only [] at h
        cases h1 : buildDownList g n nd.replies with
        | none => rw [h1] at h; simp at h
        | some ts1 =>
          cases h2 : buildDownList g n rest with
          | none => rw [h1, h2] at h; simp at h
          | some ts2 =>
            rw [h1, h2] at h
            simp only [] at h
            injection h with h3
            subst h3
            simp only [dtreeListParentFree, dtreeParentFree, Option.isNone_none,
              Bool.true_and, Bool.and_eq_true]
            exact ⟨ih nd.replies ts1 h1, ih rest ts2 h2⟩

/-- C2 (theorem): re-rooting the stored thread `A(root)->B->C`, `B->D` on
focus `D` yields the ancestor chain `D -> B -> A` (`A` having no further
parent) with `D`'s replies list empty; re-rooting on focus `A` yields the
full descendant fan `[B[C,D]]`; and in every re-rooted view every cloned
ancestor has its replies removed while every cloned descendant has its
parent pointer removed. -/
theorem thread_rerooting_focus_views :
    buildFocusPost focusGraph 10 "D" =
      some ⟨"D", [⟨"B", []⟩, ⟨"A", []⟩], []⟩ ∧
    buildFocusPost focusGraph 10 "A" =
      some ⟨"A", [],
        [DTree.mk "B" none [DTree.mk "C" none [], DTree.mk "D" none []]]⟩ ∧
    (∀ (g : ThreadCache) (fuel : Nat) (i : String) (v : FocusView),
      buildFocusPost g fuel i = some v →
      (∀ u ∈ v.ancestors, u.replies = []) ∧ dtreeListParentFree v.replies = true) := by
  refine ⟨by rfl, by rfl, ?_⟩
  intro g fuel i v h
  unfold buildFocusPost at h
  cases hg : getNode g i with
  | none => rw [hg] at h; simp at h
  | some nd =>
    rw [hg] at h
    simp only [] at h
    cases hp : nd.parent with
    | none =>
      rw [hp] at h
      simp only [] at h
      cases hd : buildDownList g fuel nd.replies with
      | none => rw [hd] at h; simp at h
      | some rs =>
        rw [hd] at h
        simp only [] at h
        injection h with h2
        subst h2
        exact ⟨fun u hu => absurd hu (List.not_mem_nil u),
          buildDownList_parent_free g fuel nd.replies rs hd⟩
    | some p =>
      rw [hp] at h
      simp only [] at h
      cases ha : buildUp g fuel p with
      | none => rw [ha] at h; simp at h
      | some a =>
        cases hd : buildDownList g fuel nd.replies with
        | none => rw [ha, hd] at h; simp at h
        | some rs =>
          rw [ha, hd] at h
          simp only [] at h
          injection h with h2
          subst h2
          exact ⟨buildUp_replies_empty g fuel p a ha,
            buildDownList_parent_free g fuel nd.replies rs hd⟩

/-- C2 (witness): the general clone rules of the theorem applied to the
focus view computed for focus `A` of the concrete thread. -/
theorem thread_rerooting_focus_views_witness :
    (∀ u ∈ (FocusView.mk "A" []
        [DTree.mk "B" none [DTree.mk "C" none [], DTree.mk "D" none []]]).ancestors,
      u.replies = []) ∧
    dtreeListParentFree (FocusView.mk "A" []
        [DTree.mk "B" none [DTree.mk "C" none [], DTree.mk "D" none []]]).replies = true :=
  thread_rerooting_focus_views.2.2 focusGraph 10 "A" _ (by rfl)

/-- Helper: on the cyclic pair the `up` recursion never returns, whatever
the fuel: each unit of fuel just crosses to the other node of the cycle. -/
theorem buildUp_cycle_exhausts_all_fuel :
    ∀ (fuel : Nat), buildUp cycleGraph fuel "X" = none ∧
      buildUp cycleGraph fuel "Y" = none := by
  intro fuel
  induction fuel with
  | zero => exact ⟨rfl, rfl⟩
  | succ n ih =>
    constructor
    · have hstep : buildUp cycleGraph (Nat.succ n) "X" =
          (buildUp cycleGraph n "Y").map (fun rest => ⟨"X", []⟩ :: rest) := rfl
      rw [hstep, ih.2]
      rfl
    · have hstep : buildUp cycleGraph (Nat.succ n) "Y" =
          (buildUp cycleGraph n "X").map (fun rest => ⟨"Y", []⟩ :: rest) := rfl
      rw [hstep, ih.1]
      rfl

/-- C5 (theorem): wiring the two-node parent cycle `X <-> Y` gives each node
the other as parent and as reply, and on that graph the re-rooting recursion
of `BuildFocusPost` exhausts every finite amount of fuel without returning —
the source recursion, which has no visited tracking, recurses unboundedly
and never marks the anomaly. -/
theorem thread_cycle_reconstruction_never_returns :
    getNode cycleGraph "X" = some ⟨some "Y", ["Y"]⟩ ∧
    getNode cycleGraph "Y" = some ⟨some "X", ["X"]⟩ ∧
    ∀ (fuel : Nat), buildFocusPost cycleGraph fuel "X" = none := by
  refine ⟨rfl, rfl, ?_⟩
  intro fuel
  have hstep : buildFocusPost cycleGraph fuel "X" =
      match buildUp cycleGraph fuel "Y", buildDownList cycleGraph fuel ["Y"] with
      | some a, some rs => some ⟨"X", a, rs⟩
      | _, _ => none := rfl
  rw [hstep, (buildUp_cycle_exhausts_all_fuel fuel).2]

/-- Helper: membership in the JavaScript-`Set` deduplication is membership
in the original list (stated over the accumulating fold). -/
theorem mem_dedup_foldl (x : String) :
    ∀ (l : List String) (acc : List String),
      (x ∈ l.foldl (fun acc k => if acc.contains k then acc else acc ++ [k]) acc) ↔
        (x ∈ acc ∨ x ∈ l) := by
  intro l
  induction l with
  | nil => intro acc; simp
  | cons k rest ih =>
    intro acc
    simp only [List.foldl_cons, ih, List.mem_cons]
    by_cases hk : acc.contains k
    · have hmem : k ∈ acc := by
        simpa using hk
      rw [if_pos hk]
      constructor
      · rintro (h | h)
        · exact Or.inl h
        · exact Or.inr (Or.inr h)
      · rintro (h | h | h)
        · exact Or.inl h
        · subst h; exact Or.inl hmem
        · exact Or.inr h
    · rw [if_neg hk]
      simp only [List.mem_append, List.mem_singleton]
      tauto

/-- Helper: membership in `dedupKeepFirst`. -/
theorem mem_dedupKeepFirst (x : String) (l : List String) :
    x ∈ dedupKeepFirst l ↔ x ∈ l := by
  unfold dedupKeepFirst
  rw [mem_dedup_foldl]
  simp

/-- Helper: a key appearing in an association list's key column is found by
`find?`. -/
theorem find?_isSome_of_mem_keys {R : Type} (i : String) :
    ∀ (m : List (String × R)), i ∈ m.map Prod.fst →
      ∃ kv, m.find? (fun kv => kv.1 == i) = some kv := by
  intro m
  induction m with
  | nil => intro h; cases h
  | cons kv rest ih =>
    intro h
    by_cases hk : (kv.1 == i) = true
    · exact ⟨kv, by simp [List.find?, hk]⟩
    · have h2 : i ∈ rest.map Prod.fst := by
        simp only [List.map_cons, List.mem_cons] at h
        rcases h with h3 | h3
        · exfalso; apply hk; simp [h3]
        · exact h3
      obtain ⟨kv2, hkv2⟩ := ih h2
      refine ⟨kv2, ?_⟩
      have hk2 : (kv.1 == i) = false := by
        simpa using hk
      simp [List.find?, hk2, hkv2]

/-- Helper: the id loop of `tableDiffOf` leaves the accumulator untouched
whenever every id is found on both sides with rows `eqR` considers equal
(used with both sides literally the same map). -/
theorem tableDiff_foldl_id {R : Type} (eqR : R → R → Bool)
    (m : List (String × R)) :
    ∀ (ids : List String) (d : TableDiff),
      (∀ i ∈ ids, ∃ kv, m.find? (fun kv => kv.1 == i) = some kv ∧ eqR kv.2 kv.2 = true) →
      (ids.foldl (fun d i =>
        match m.find? (fun kv => kv.1 == i), m.find? (fun kv => kv.1 == i) with
        | none, _ => { d with onlyIn2 := d.onlyIn2 ++ [i] }
        | some _, none => { d with onlyIn1 := d.onlyIn1 ++ [i] }
        | some r1, some r2 =>
          if eqR r1.2 r2.2 then d
          else { d with inBothButDifferent := d.inBothButDifferent ++ [i] }) d) = d := by
  intro ids
  induction ids with
  | nil => intro d _; rfl
  | cons i rest ih =>
    intro d hall
    obtain ⟨kv, hkv, heq⟩ := hall i (by simp)
    rw [List.foldl_cons]
    have hstep : (match m.find? (fun kv => kv.1 == i), m.find? (fun kv => kv.1 == i) with
        | none, _ => { d with onlyIn2 := d.onlyIn2 ++ [i] }
        | some _, none => { d with onlyIn1 := d.onlyIn1 ++ [i] }
        | some r1, some r2 =>
          if eqR r1.2 r2.2 then d
          else { d with inBothButDifferent := d.inBothButDifferent ++ [i] }) = d := by
      rw [hkv]
      simp only []
      rw [heq]
      rfl
    rw [hstep]
    exact ih d (fun j hj => hall j (by simp [hj]))

/-- Helper: diffing identical record lists yields the empty diff. -/
theorem tableDiffOf_self_empty {R : Type} (keyOf : R → String) (eqR : R → R → Bool)
    (heq : ∀ r : R, eqR r r = true) (rs : List R) :
    tableDiffOf keyOf eqR rs rs = ⟨[], [], []⟩ := by
  unfold tableDiffOf
  apply tableDiff_foldl_id
  intro i hi
  rw [mem_dedupKeepFirst] at hi
  have hi2 : i ∈ (jsMapOfList keyOf rs).map Prod.fst := by
    rcases List.mem_append.mp hi with h | h <;> exact h
  obtain ⟨kv, hkv⟩ := find?_isSome_of_mem_keys i (jsMapOfList keyOf rs) hi2
  exact ⟨kv, hkv, heq kv.2⟩

/-- Helper: the table loop records a table exactly when it appears in the
traversed name list with a non-empty diff. -/
theorem buildDifferences_find {R : Type} (keyOf : R → String) (eqR : R → R → Bool)
    (t1 t2 : List (String × List R)) :
    ∀ (ts : List String) (name : String),
      (((buildDifferences keyOf eqR t1 t2 ts).find? (fun td => td.1 == name)).isSome
          = true) ↔
        (name ∈ ts ∧
          diffNonempty (tableDiffOf keyOf eqR (lookupTable t1 name)
            (lookupTable t2 name)) = true) := by
  intro ts
  induction ts with
  | nil =>
    intro name
    simp [buildDifferences]
  | cons t rest ih =>
    intro name
    by_cases hd : diffNonempty (tableDiffOf keyOf eqR (lookupTable t1 t)
        (lookupTable t2 t)) = true
    · rw [buildDifferences]
      rw [if_pos hd]
      by_cases ht : t = name
      · subst ht
        simp [List.find?_cons, hd]
      · have hbeq : ((t, tableDiffOf keyOf eqR (lookupTable t1 t)
            (lookupTable t2 t)).1 == name) = false := by
          simpa using ht
        rw [List.singleton_append, List.find?_cons, hbeq]
        rw [ih name]
        simp only [List.mem_cons]
        constructor
        · rintro ⟨h1, h2⟩; exact ⟨Or.inr h1, h2⟩
        · rintro ⟨h1 | h1, h2⟩
          · exact absurd h1.symm ht
          · exact ⟨h1, h2⟩
    · rw [buildDifferences]
      rw [if_neg hd, List.nil_append, ih name]
      simp only [List.mem_cons]
      constructor
      · rintro ⟨h1, h2⟩; exact ⟨Or.inr h1, h2⟩
      · rintro ⟨h1 | h1, h2⟩
        · subst h1; exact absurd h2 hd
        · exact ⟨h1, h2⟩

/-- C10 (theorem): `compareSnapshots` records a table in its differences map
if and only if the table occurs in either snapshot and at least one of that
table's `onlyIn1`, `onlyIn2`, `inBothButDifferent` lists is non-empty; a
table whose record lists are identical in both snapshots is omitted from
the output entirely. -/
theorem compareSnapshots_differences_iff_nonempty {R : Type}
    (keyOf : R → String) (eqR : R → R → Bool)
    (t1 t2 : List (String × List R)) (name : String) :
    ((((compareSnapshots keyOf eqR t1 t2).find? (fun td => td.1 == name)).isSome
        = true) ↔
      (name ∈ (t1.map Prod.fst ++ t2.map Prod.fst) ∧
        diffNonempty (tableDiffOf keyOf eqR (lookupTable t1 name)
          (lookupTable t2 name)) = true)) ∧
    ((∀ r : R, eqR r r = true) →
      lookupTable t1 name = lookupTable t2 name →
      (compareSnapshots keyOf eqR t1 t2).find? (fun td => td.1 == name) = none) := by
  constructor
  · unfold compareSnapshots
    rw [buildDifferences_find, mem_dedupKeepFirst]
  · intro heq hsame
    have h1 := buildDifferences_find keyOf eqR t1 t2
      (dedupKeepFirst (t1.map Prod.fst ++ t2.map Prod.fst)) name
    rw [hsame, tableDiffOf_self_empty keyOf eqR heq] at h1
    have h2 : diffNonempty (⟨[], [], []⟩ : TableDiff) = false := rfl
    rw [h2] at h1
    simp only [Bool.false_eq_true, and_false, iff_false] at h1
    unfold compareSnapshots
    exact Option.not_isSome_iff_eq_none.mp (by simpa using h1)

/-- Helper: a successful `find?` is stable under appending on the right. -/
theorem find?_append_some {α : Type} (p : α → Bool) (a : α) :
    ∀ (l1 l2 : List α), l1.find? p = some a → (l1 ++ l2).find? p = some a := by
  intro l1 l2
  induction l1 with
  | nil => intro h; cases h
  | cons x rest ih =>
    intro h
    cases hx : p x with
    | true => simp_all [List.find?]
    | false =>
      simp only [List.find?, hx] at h
      simpa [List.find?, hx] using ih h

/-- Helper: a failed `find?` passes through to the appended tail. -/
theorem find?_append_none {α : Type} (p : α → Bool) :
    ∀ (l1 l2 : List α), l1.find? p = none → (l1 ++ l2).find? p = l2.find? p := by
  intro l1 l2
  induction l1 with
  | nil => intro _; rfl
  | cons x rest ih =>
    intro h
    cases hx : p x with
    | true => simp_all [List.find?]
    | false =>
      simp only [List.find?, hx] at h
      simpa [List.find?, hx] using ih h

/-- Helper: the dedup fold keeps the accumulator duplicate-free. -/
theorem dedup_foldl_nodup :
    ∀ (l : List String) (acc : List String), acc.Nodup →
      (l.foldl (fun acc k => if acc.contains k then acc else acc ++ [k]) acc).Nodup := by
  intro l
  induction l with
  | nil => intro acc h; exact h
  | cons k rest ih =>
    intro acc h
    rw [List.foldl_cons]
    by_cases hk : acc.contains k
    · rw [if_pos hk]; exact ih acc h
    · rw [if_neg hk]
      apply ih
      have hnot : k ∉ acc := by simpa using hk
      simpa [List.nodup_append] using ⟨h, hnot⟩

/-- Helper: `dedupKeepFirst` produces a duplicate-free list. -/
theorem dedupKeepFirst_nodup (l : List String) : (dedupKeepFirst l).Nodup :=
  dedup_foldl_nodup l [] List.nodup_nil

/-- Helper: the dedup fold over a duplicate-free list disjoint from the
accumulator appends the whole list. -/
theorem dedup_foldl_of_nodup :
    ∀ (l : List String) (acc : List String), l.Nodup → (∀ x ∈ l, x ∉ acc) →
      (l.foldl (fun acc k => if acc.contains k then acc else acc ++ [k]) acc) =
        acc ++ l := by
  intro l
  induction l with
  | nil => intro acc _ _; simp
  | cons k rest ih =>
    intro acc hnodup hdisj
    rw [List.foldl_cons]
    have hk : ¬ acc.contains k = true := by
      simpa using hdisj k (by simp)
    rw [if_neg hk]
    have h1 := ih (acc ++ [k]) hnodup.of_cons
    rw [h1]
    · simp
    · intro x hx
      simp only [List.mem_append, List.mem_singleton]
      rintro (h2 | h2)
      · exact hdisj x (by simp [hx]) h2
      · subst h2
        exact (List.nodup_cons.mp hnodup).1 hx

/-- Helper: `dedupKeepFirst` is the identity on duplicate-free lists. -/
theorem dedupKeepFirst_of_nodup (l : List String) (h : l.Nodup) :
    dedupKeepFirst l = l := by
  unfold dedupKeepFirst
  rw [dedup_foldl_of_nodup l [] h (by simp)]
  simp

/-- Helper: `dedupKeepFirst` is idempotent. -/
theorem dedupKeepFirst_idem (l : List String) :
    dedupKeepFirst (dedupKeepFirst l) = dedupKeepFirst l :=
  dedupKeepFirst_of_nodup _ (dedupKeepFirst_nodup l)

/-- Helper: deduplicating a non-empty list gives a non-empty list. -/
theorem dedupKeepFirst_ne_nil (l : List String) (h : l ≠ []) :
    dedupKeepFirst l ≠ [] := by
  cases l with
  | nil => exact absurd rfl h
  | cons x rest =>
    intro hcontra
    have : x ∈ dedupKeepFirst (x :: rest) := (mem_dedupKeepFirst x _).mpr (by simp)
    rw [hcontra] at this
    cases this

/-- Helper: inserting into a JavaScript `Map` either keeps the key column
(existing key) or appends the new key. -/
theorem jsMapInsert_keys {R : Type} (m : List (String × R)) (k : String) (v : R) :
    (jsMapInsert m k v).map Prod.fst =
      if (m.map Prod.fst).contains k then m.map Prod.fst
      else m.map Prod.fst ++ [k] := by
  unfold jsMapInsert
  by_cases hk : k ∈ m.map Prod.fst
  · have hany : m.any (fun kv => kv.1 = k) = true := by
      rcases List.mem_map.mp hk with ⟨kv, hkv, hfst⟩
      exact List.any_eq_true.mpr ⟨kv, hkv, by simp [hfst]⟩
    have hcont : (m.map Prod.fst).contains k = true := by
      simpa using hk
    rw [if_pos hany, if_pos hcont, List.map_map]
    apply List.map_congr_left
    intro kv _
    by_cases h2 : kv.1 = k
    · simp [h2]
    · simp [h2]
  · have hany : m.any (fun kv => kv.1 = k) = false := by
      rw [List.any_eq_false]
      intro kv hkv
      simp only [decide_eq_true_eq]
      intro h2
      exact hk (List.mem_map.mpr ⟨kv, hkv, h2⟩)
    have hcont : ¬ (m.map Prod.fst).contains k = true := by
      simpa using hk
    have hno : ¬ ((m.any fun kv => decide (kv.1 = k)) = true) := by
      simp [hany]
    rw [if_neg hno, if_neg hcont, List.map_append]
    rfl

/-- Helper: the key column of the `Map` that `compareSnapshots` builds from
a record list is the deduplicated key sequence of that list. -/
theorem jsMapOfList_keys {R : Type} (keyOf : R → String) :
    ∀ (rs : List R) (m : List (String × R)),
      ((rs.foldl (fun m r => jsMapInsert m (keyOf r) r) m).map Prod.fst) =
        (rs.map keyOf).foldl
          (fun acc k => if acc.contains k then acc else acc ++ [k])
          (m.map Prod.fst) := by
  intro rs
  induction rs with
  | nil => intro m; rfl
  | cons r rest ih =>
    intro m
    rw [List.foldl_cons, List.map_cons, List.foldl_cons, ih, jsMapInsert_keys]

/-- Helper: the keys of the built `Map`. -/
theorem jsMapOfList_keys_eq {R : Type} (keyOf : R → String) (rs : List R) :
    (jsMapOfList keyOf rs).map Prod.fst = dedupKeepFirst (rs.map keyOf) :=
  jsMapOfList_keys keyOf rs []

/-- Helper: the id loop of `tableDiffOf` pushes every id found only on the
left side onto `onlyIn1`. -/
theorem tableDiff_foldl_onlyIn1 {R : Type} (eqR : R → R → Bool)
    (m1 : List (String × R)) :
    ∀ (ids : List String) (d : TableDiff),
      (∀ i ∈ ids, ∃ kv, m1.find? (fun kv => kv.1 == i) = some kv) →
      (ids.foldl (fun d i =>
        match m1.find? (fun kv => kv.1 == i),
            (([] : List (String × R)).find? (fun kv => kv.1 == i)) with
        | none, _ => { d with onlyIn2 := d.onlyIn2 ++ [i] }
        | some _, none => { d with onlyIn1 := d.onlyIn1 ++ [i] }
        | some r1, some r2 =>
          if eqR r1.2 r2.2 then d
          else { d with inBothButDifferent := d.inBothButDifferent ++ [i] }) d) =
      { d with onlyIn1 := d.onlyIn1 ++ ids } := by
  intro ids
  induction ids with
  | nil => intro d _; simp
  | cons i rest ih =>
    intro d hall
    obtain ⟨kv, hkv⟩ := hall i (by simp)
    rw [List.foldl_cons]
    have hstep : (match m1.find? (fun kv => kv.1 == i),
          (([] : List (String × R)).find? (fun kv => kv.1 == i)) with
        | none, _ => { d with onlyIn2 := d.onlyIn2 ++ [i] }
        | some _, none => { d with onlyIn1 := d.onlyIn1 ++ [i] }
        | some r1, some r2 =>
          if eqR r1.2 r2.2 then d
          else { d with inBothButDifferent := d.inBothButDifferent ++ [i] }) =
        { d with onlyIn1 := d.onlyIn1 ++ [i] } := by
      rw [hkv]
      rfl
    rw [hstep, ih _ (fun j hj => hall j (by simp [hj]))]
    simp

/-- Helper: diffing a record list against an absent table puts exactly its
deduplicated ids into `onlyIn1`. -/
theorem tableDiffOf_with_empty {R : Type} (keyOf : R → String) (eqR : R → R → Bool)
    (rs : List R) :
    tableDiffOf keyOf eqR rs [] =
      ⟨dedupKeepFirst (rs.map keyOf), [], []⟩ := by
  unfold tableDiffOf
  have hkeys : (jsMapOfList keyOf rs).map Prod.fst = dedupKeepFirst (rs.map keyOf) :=
    jsMapOfList_keys_eq keyOf rs
  have hids : dedupKeepFirst ((jsMapOfList keyOf rs).map Prod.fst ++
      (jsMapOfList keyOf ([] : List R)).map Prod.fst) = dedupKeepFirst (rs.map keyOf) := by
    show dedupKeepFirst ((jsMapOfList keyOf rs).map Prod.fst ++ []) = _
    rw [List.append_nil, hkeys, dedupKeepFirst_idem]
  rw [hids]
  have hall : ∀ i ∈ dedupKeepFirst (rs.map keyOf),
      ∃ kv, (jsMapOfList keyOf rs).find? (fun kv => kv.1 == i) = some kv := by
    intro i hi
    apply find?_isSome_of_mem_keys
    rw [hkeys]
    exact hi
  have := tableDiff_foldl_onlyIn1 eqR (jsMapOfList keyOf rs)
    (dedupKeepFirst (rs.map keyOf)) ⟨[], [], []⟩ hall
  simpa using this

/-- C10 (witness): comparing a snapshot's tables against identical tables
omits the table from the differences map (the theorem's omission part
applied at a concrete input). -/
theorem compareSnapshots_differences_iff_nonempty_witness :
    (compareSnapshots xKeyOf (fun a b => a == b)
      [("post", [xrowFixture])] [("post", [xrowFixture])]).find?
        (fun td => td.1 == "post") = none :=
  (compareSnapshots_differences_iff_nonempty xKeyOf (fun a b => a == b)
    [("post", [xrowFixture])] [("post", [xrowFixture])] "post").2
    (fun r => by simp) (by rfl)

/-- Helper: upserting a row already present in a table whose `(id, version)`
pairs are unique overwrites that row with its own column values, leaving the
table unchanged. -/
theorem upsertRow_of_mem (rows : List SQLRow) (sid : String) (r : SQLRow)
    (hmem : r ∈ rows) (hku : rowKeyUnique rows) :
    upsertRow rows sid r = rows := by
  unfold upsertRow
  have hany : rows.any (fun q => q.id == r.id && q.version == r.version) = true :=
    List.any_eq_true.mpr ⟨r, hmem, by simp⟩
  rw [if_pos hany]
  conv_rhs => rw [← List.map_id rows]
  apply List.map_congr_left
  intro q hq
  by_cases hqr : (q.id == r.id && q.version == r.version) = true
  · rw [if_pos hqr]
    obtain ⟨hq1, hq2⟩ : q.id = r.id ∧ q.version = r.version := by
      simpa using hqr
    have heq : q = r := hku q hq r hmem hq1 hq2
    subst heq
    rfl
  · rw [if_neg hqr]
    rfl

/-- Helper: `ensureTableExists` is a no-op for an existing table. -/
theorem ensureTable_of_mem (tabs : List (String × List SQLRow)) (name : String)
    (rows0 : List SQLRow) (hmem : (name, rows0) ∈ tabs) :
    ensureTable tabs name = tabs := by
  unfold ensureTable
  rw [if_pos (List.any_eq_true.mpr ⟨(name, rows0), hmem, by simp⟩)]

/-- Helper: upserting into the named table a row that the table already
contains leaves the whole table list unchanged (table names unique). -/
theorem upsertIntoTables_preserved (sid : String) (r : SQLRow) :
    ∀ (tabs : List (String × List SQLRow)) (name : String) (rows0 : List SQLRow),
      (tabs.map Prod.fst).Nodup → (name, rows0) ∈ tabs → r ∈ rows0 →
      rowKeyUnique rows0 →
      upsertIntoTables tabs name sid r = tabs := by
  intro tabs
  induction tabs with
  | nil => intro name rows0 _ hm; cases hm
  | cons t rest ih =>
    intro name rows0 hnodup hmem hr hku
    unfold upsertIntoTables
    simp only [List.map_cons]
    rcases List.mem_cons.mp hmem with heq | hmem2
    · have ht : t = (name, rows0) := heq.symm
      subst ht
      have hnotin : name ∉ rest.map Prod.fst := by
        have hnodup2 : (name :: rest.map Prod.fst).Nodup := by
          simpa only [List.map_cons] using hnodup
        exact (List.nodup_cons.mp hnodup2).1
      congr 1
      · rw [if_pos (by simp)]
        rw [upsertRow_of_mem rows0 sid r hr hku]
      · conv_rhs => rw [← List.map_id rest]
        apply List.map_congr_left
        intro u hu
        have hune : ¬ (u.1 == name) = true := by
          intro hcontra
          apply hnotin
          have h3 : u.1 = name := by simpa using hcontra
          exact h3 ▸ List.mem_map.mpr ⟨u, hu, rfl⟩
        rw [if_neg hune]
        rfl
    · have hne : ¬ (t.1 == name) = true := by
        intro hcontra
        have heq2 : t.1 = name := by simpa using hcontra
        have h1 : name ∈ rest.map Prod.fst :=
          List.mem_map.mpr ⟨(name, rows0), hmem2, rfl⟩
        have hnodup2 : (t.1 :: rest.map Prod.fst).Nodup := by
          simpa only [List.map_cons] using hnodup
        have h2 : t.1 ∉ rest.map Prod.fst := (List.nodup_cons.mp hnodup2).1
        rw [heq2] at h2
        exact h2 h1
      have htail := ih name rows0 (by
          have hnodup2 : (t.1 :: rest.map Prod.fst).Nodup := by
            simpa only [List.map_cons] using hnodup
          exact (List.nodup_cons.mp hnodup2).2) hmem2 hr hku
      unfold upsertIntoTables at htail
      rw [if_neg hne, htail]

/-- Helper: the per-record import fold is the identity when every imported
record already sits in its target table. -/
theorem import_rows_fold_id (tabs0 : List (String × List SQLRow))
    (name newId : String) (rows0 : List SQLRow)
    (hnodup : (tabs0.map Prod.fst).Nodup) (hmem0 : (name, rows0) ∈ tabs0)
    (hku : rowKeyUnique rows0) :
    ∀ (rs : List SQLRow), (∀ r ∈ rs, r ∈ rows0) →
      rs.foldl (fun ts2 r => upsertIntoTables ts2 name newId r) tabs0 = tabs0 := by
  intro rs
  induction rs with
  | nil => intro _; rfl
  | cons r rest ih =>
    intro hall
    rw [List.foldl_cons,
      upsertIntoTables_preserved newId r tabs0 name rows0 hnodup hmem0
        (hall r (by simp)) hku]
    exact ih (fun q hq => hall q (by simp [hq]))

/-- Helper: the per-table import fold is the identity when every imported
table is an existing table and every imported record already sits in it. -/
theorem import_tables_fold_id (tabs0 : List (String × List SQLRow)) (newId : String)
    (hnodup : (tabs0.map Prod.fst).Nodup)
    (hku : ∀ tn rows, (tn, rows) ∈ tabs0 → rowKeyUnique rows) :
    ∀ (tes : List (String × List SQLRow)),
      (∀ te ∈ tes, ∃ rows0, (te.1, rows0) ∈ tabs0 ∧ ∀ r ∈ te.2, r ∈ rows0) →
      tes.foldl (fun ts te =>
        te.2.foldl (fun ts2 r => upsertIntoTables ts2 te.1 newId r)
          (ensureTable ts te.1)) tabs0 = tabs0 := by
  intro tes
  induction tes with
  | nil => intro _; rfl
  | cons te rest ih =>
    intro hall
    obtain ⟨rows0, hmem0, hsub⟩ := hall te (by simp)
    rw [List.foldl_cons, ensureTable_of_mem tabs0 te.1 rows0 hmem0,
      import_rows_fold_id tabs0 te.1 newId rows0 hnodup hmem0
        (hku te.1 rows0 hmem0) te.2 hsub]
    exact ih (fun te2 h => hall te2 (by simp [h]))

/-- Helper: the names of an export's tables are a sublist of the store's
table names. -/
theorem export_tables_keys_sublist (sid : String) :
    ∀ (tabs : List (String × List SQLRow)),
      ((tabs.filterMap (fun t =>
          let rs := t.2.filter (fun r => r.snapshotset == sid)
          if rs.isEmpty then none else some (t.1, rs))).map Prod.fst).Sublist
        (tabs.map Prod.fst) := by
  intro tabs
  induction tabs with
  | nil => simp
  | cons t rest ih =>
    by_cases he : (t.2.filter (fun r => r.snapshotset == sid)).isEmpty = true
    · simp only [List.filterMap_cons, he, if_pos, List.map_cons]
      exact ih.cons t.1
    · simp only [List.filterMap_cons, he, if_neg, List.map_cons]
      exact ih.cons₂ t.1

/-- Helper: `lookupTable` returns a table's own record list when table names
are unique. -/
theorem lookupTable_of_mem {R : Type} :
    ∀ (tabs : List (String × List R)), (tabs.map Prod.fst).Nodup →
      ∀ te ∈ tabs, lookupTable tabs te.1 = te.2 := by
  intro tabs
  induction tabs with
  | nil => intro _ te hte; cases hte
  | cons t rest ih =>
    intro hnodup te hte
    rcases List.mem_cons.mp hte with heq | hmem
    · subst heq
      unfold lookupTable
      simp [List.find?]
    · have hkey : te.1 ∈ rest.map Prod.fst := List.mem_map.mpr ⟨te, hmem, rfl⟩
      have hne : ¬ (t.1 == te.1) = true := by
        intro hcontra
        have h3 : t.1 = te.1 := by simpa using hcontra
        have hnodup2 : (t.1 :: rest.map Prod.fst).Nodup := by
          simpa only [List.map_cons] using hnodup
        have h2 : t.1 ∉ rest.map Prod.fst := (List.nodup_cons.mp hnodup2).1
        rw [h3] at h2
        exact h2 hkey
      have htail := ih (by
          have hnodup2 : (t.1 :: rest.map Prod.fst).Nodup := by
            simpa only [List.map_cons] using hnodup
          exact (List.nodup_cons.mp hnodup2).2) te hmem
      unfold lookupTable at htail ⊢
      simp only [List.find?, hne]
      simpa using htail

/-- Helper: a non-empty record list yields a non-empty `onlyIn1` diff, so
`diffNonempty` holds. -/
theorem diffNonempty_with_empty {R : Type} (keyOf : R → String) (eqR : R → R → Bool)
    (rs : List R) (hne : rs ≠ []) :
    diffNonempty (tableDiffOf keyOf eqR rs []) = true := by
  rw [tableDiffOf_with_empty]
  have h1 : dedupKeepFirst (rs.map keyOf) ≠ [] := by
    apply dedupKeepFirst_ne_nil
    cases rs with
    | nil => exact absurd rfl hne
    | cons a l => simp
  unfold diffNonempty
  cases h2 : dedupKeepFirst (rs.map keyOf) with
  | nil => exact absurd h2 h1
  | cons a l => rfl

/-- Helper: the table loop against a missing second snapshot reports, for
every traversed table with records, all of its ids under `onlyIn1`. -/
theorem buildDifferences_with_empty {R : Type} (keyOf : R → String)
    (eqR : R → R → Bool) (tabs : List (String × List R)) :
    ∀ (ts : List String), (∀ t ∈ ts, lookupTable tabs t ≠ []) →
      buildDifferences keyOf eqR tabs [] ts =
        ts.map (fun t =>
          (t, ⟨dedupKeepFirst ((lookupTable tabs t).map keyOf), [], []⟩)) := by
  intro ts
  induction ts with
  | nil => intro _; rfl
  | cons t rest ih =>
    intro hall
    rw [buildDifferences]
    have hlook : lookupTable ([] : List (String × List R)) t = [] := rfl
    rw [hlook, if_pos (diffNonempty_with_empty keyOf eqR _ (hall t (by simp))),
      tableDiffOf_with_empty, ih (fun u hu => hall u (by simp [hu]))]
    rfl

/-- Helper: comparing a snapshot's tables against an empty export reports,
for every table, exactly its deduplicated ids under `onlyIn1`. -/
theorem compareSnapshots_with_empty {R : Type} (keyOf : R → String)
    (eqR : R → R → Bool) (tabs : List (String × List R))
    (hnodup : (tabs.map Prod.fst).Nodup) (hne : ∀ te ∈ tabs, te.2 ≠ []) :
    compareSnapshots keyOf eqR tabs [] =
      tabs.map (fun te => (te.1, ⟨dedupKeepFirst (te.2.map keyOf), [], []⟩)) := by
  unfold compareSnapshots
  have hdd : dedupKeepFirst (tabs.map Prod.fst ++
      ([] : List (String × List R)).map Prod.fst) = tabs.map Prod.fst := by
    rw [show (([] : List (String × List R)).map Prod.fst) = [] from rfl,
      List.append_nil]
    exact dedupKeepFirst_of_nodup _ hnodup
  rw [hdd, buildDifferences_with_empty keyOf eqR tabs (tabs.map Prod.fst) (by
    intro t ht
    rcases List.mem_map.mp ht with ⟨te, hte, hfst⟩
    rw [← hfst, lookupTable_of_mem tabs hnodup te hte]
    exact hne te hte)]
  rw [List.map_map]
  apply List.map_congr_left
  intro te hte
  show (te.1, (⟨dedupKeepFirst ((lookupTable tabs te.1).map keyOf), [], []⟩ : TableDiff)) = _
  rw [lookupTable_of_mem tabs hnodup te hte]

/-- C4 (amended, theorem): importing an exported snapshot under a fresh id
into the same SQLite store upserts on `(id, version)`, so every imported row
collides with its original and the per-record updates rewrite each row with
its own values: the record tables are left unchanged and the fresh snapshot
holds no rows.  Comparing the original snapshot with the fresh one then
reports, for every exported table, all of its ids under `onlyIn1` (and
nothing under `onlyIn2` or `inBothButDifferent`) — not an empty diff. -/
theorem export_import_compare_reports_onlyIn1
    (db : SQLiteDB) (sid newId : String) (ex : ExportedSnapshot)
    (hex : exportSnapshot db sid = some ex)
    (hnodup : (db.tables.map Prod.fst).Nodup)
    (hku : ∀ tn rows, (tn, rows) ∈ db.tables → rowKeyUnique rows)
    (hfresh : ∀ tn rows, (tn, rows) ∈ db.tables → ∀ r ∈ rows, r.snapshotset ≠ newId)
    (hsnap : db.snapshots.find? (fun s => s.1 == newId) = none) :
    (importSnapshot db newId ex).tables = db.tables ∧
    compareDbSnapshots (importSnapshot db newId ex) sid newId =
      some (ex.tables.map (fun te =>
        (te.1, ⟨dedupKeepFirst (te.2.map SQLRow.id), [], []⟩))) := by
  unfold exportSnapshot at hex
  cases hs : db.snapshots.find? (fun s => s.1 == sid) with
  | none => rw [hs] at hex; cases hex
  | some s =>
    rw [hs] at hex
    simp only [] at hex
    injection hex with hexx
    subst hexx
    have hTprop : ∀ te ∈ db.tables.filterMap (fun t =>
        let rs := t.2.filter (fun r => r.snapshotset == sid)
        if rs.isEmpty then none else some (t.1, rs)),
        ∃ rows0, (te.1, rows0) ∈ db.tables ∧
          te.2 = rows0.filter (fun r => r.snapshotset == sid) ∧ te.2 ≠ [] := by
      intro te hte
      rw [List.mem_filterMap] at hte
      obtain ⟨t, ht, hFt⟩ := hte
      simp only [] at hFt
      by_cases he : (t.2.filter (fun r => r.snapshotset == sid)).isEmpty = true
      · rw [if_pos he] at hFt; cases hFt
      · rw [if_neg he] at hFt
        injection hFt with h1
        refine ⟨t.2, ?_, ?_, ?_⟩
        · have : (t.1, t.2) = t := rfl
          rw [← h1]
          simpa [this] using ht
        · rw [← h1]
        · rw [← h1]
          simp only [ne_eq]
          intro hcontra
          rw [hcontra] at he
          exact he rfl
    have hsnapany : db.snapshots.any (fun s2 => s2.1 == newId) = false := by
      rw [List.any_eq_false]
      intro x hx
      have h0 := List.find?_eq_none.mp hsnap x hx
      simpa using h0
    have htabs : ((db.tables.filterMap (fun t =>
          let rs := t.2.filter (fun r => r.snapshotset == sid)
          if rs.isEmpty then none else some (t.1, rs))).foldl (fun ts te =>
        te.2.foldl (fun ts2 r => upsertIntoTables ts2 te.1 newId r)
          (ensureTable ts te.1)) db.tables) = db.tables := by
      apply import_tables_fold_id db.tables newId hnodup hku
      intro te hte
      obtain ⟨rows0, hmem0, hfil, _⟩ := hTprop te hte
      exact ⟨rows0, hmem0, fun r hr => List.mem_of_mem_filter (hfil ▸ hr)⟩
    have hdb2 : importSnapshot db newId ⟨sid, s.2,
        db.tables.filterMap (fun t =>
          let rs := t.2.filter (fun r => r.snapshotset == sid)
          if rs.isEmpty then none else some (t.1, rs))⟩ =
        ⟨db.snapshots ++ [(newId, s.2)],
          db.tables⟩ := by
      unfold importSnapshot
      rw [if_neg (by simp [hsnapany]), htabs]
    rw [hdb2]
    refine ⟨rfl, ?_⟩
    have hexp1 : exportSnapshot ⟨db.snapshots ++ [(newId, s.2)], db.tables⟩ sid =
        some ⟨sid, s.2, db.tables.filterMap (fun t =>
          let rs := t.2.filter (fun r => r.snapshotset == sid)
          if rs.isEmpty then none else some (t.1, rs))⟩ := by
      unfold exportSnapshot
      rw [find?_append_some _ s db.snapshots [(newId, s.2)] hs]
    have hT2 : db.tables.filterMap (fun t =>
        let rs := t.2.filter (fun r => r.snapshotset == newId)
        if rs.isEmpty then none else some (t.1, rs)) = [] := by
      rw [List.filterMap_eq_nil]
      intro t ht
      have hfilter : t.2.filter (fun r => r.snapshotset == newId) = [] := by
        rw [List.filter_eq_nil]
        intro r hr
        have h0 := hfresh t.1 t.2 (by simpa using ht) r hr
        simpa using h0
      simp [hfilter]
    have hexp2 : exportSnapshot ⟨db.snapshots ++ [(newId, s.2)], db.tables⟩ newId =
        some ⟨newId, s.2, []⟩ := by
      unfold exportSnapshot
      rw [find?_append_none _ db.snapshots [(newId, s.2)] hsnap]
      have hone : List.find? (fun s2 => s2.1 == newId) [(newId, s.2)] =
          some (newId, s.2) := by
        simp [List.find?]
      rw [hone]
      simp only []
      rw [hT2]
    unfold compareDbSnapshots
    rw [hexp1, hexp2]
    simp only []
    congr 1
    have hTnodup : ((db.tables.filterMap (fun t =>
        let rs := t.2.filter (fun r => r.snapshotset == sid)
        if rs.isEmpty then none else some (t.1, rs))).map Prod.fst).Nodup :=
      hnodup.sublist (export_tables_keys_sublist sid db.tables)
    have hTne : ∀ te ∈ db.tables.filterMap (fun t =>
        let rs := t.2.filter (fun r => r.snapshotset == sid)
        if rs.isEmpty then none else some (t.1, rs)), te.2 ≠ [] := by
      intro te hte
      obtain ⟨rows0, hm1, hm2, hm3⟩ := hTprop te hte
      exact hm3
    exact compareSnapshots_with_empty sqlKeyOf sqlRowEq _ hTnodup hTne

/-- C4 (witness): the amended theorem applied to the one-snapshot,
one-record store. -/
theorem export_import_compare_reports_onlyIn1_witness :
    (importSnapshot roundtripDb "s2" roundtripExported).tables =
      roundtripDb.tables ∧
    compareDbSnapshots (importSnapshot roundtripDb "s2" roundtripExported)
        "s1" "s2" =
      some (roundtripExported.tables.map (fun te =>
        (te.1, ⟨dedupKeepFirst (te.2.map SQLRow.id), [], []⟩))) :=
  export_import_compare_reports_onlyIn1 roundtripDb "s1" "s2" roundtripExported
    (by decide) (by decide)
    (by
      intro tn rows hmem q hq r hr h1 h2
      simp only [roundtripDb, List.mem_singleton] at hmem
      have hrows : rows = [roundtripRow] := congrArg Prod.snd hmem
      subst hrows
      simp only [List.mem_singleton] at hq hr
      rw [hq, hr])
    (by
      intro tn rows hmem r hr
      simp only [roundtripDb, List.mem_singleton] at hmem
      have hrows : rows = [roundtripRow] := congrArg Prod.snd hmem
      subst hrows
      simp only [List.mem_singleton] at hr
      subst hr
      decide)
    (by decide)

/-- C4 (counterexample): exporting snapshot `s1`, importing the exported
data under the fresh id `s2`, and comparing `s1` with `s2` does not yield an
empty diff: the `post` table reports id `p1` under `onlyIn1`, because the
import's `(id, version)` upsert collided with the original row and the new
snapshot received no rows. -/
theorem roundtrip_compare_diff_not_empty :
    exportSnapshot roundtripDb "s1" = some roundtripExported ∧
    compareDbSnapshots (importSnapshot roundtripDb "s2" roundtripExported)
        "s1" "s2" =
      some [("post", ⟨["p1"], [], []⟩)] := by
  decide

end Helios
